import Mathlib

/-!
Verification of the SimpleAgentScaffold repository: a shallow embedding of
its sandbox lifecycle (`src/sandbox.py`), tool dispatch and agent loop
(`src/agent.py`), and evaluation fan-out (`src/evaluate.py`, `main.py`),
together with theorems settling the specified properties.
-/

namespace SimpleAgentScaffold

/-! ### Decimal representation facts

`make_unique_container_name` builds names `f"bash-sandbox-instance-{i}"`,
i.e. a fixed prefix followed by the decimal representation of `i`
(`Nat.repr` in this embedding).  We prove `Nat.repr` injective so that the
unbounded `for i in count()` search provably terminates on a fresh name. -/

theorem toDigitsCore_eq_digits (b : Nat) (hb : 1 < b) :
    ∀ (fuel n : Nat) (ds : List Char), 0 < n → n < b ^ fuel →
      Nat.toDigitsCore b fuel n ds =
        ((Nat.digits b n).map Nat.digitChar).reverse ++ ds := by
  intro fuel
  induction fuel with
  | zero =>
    intro n ds hn hlt
    simp at hlt
    omega
  | succ fuel ih =>
    intro n ds hn hlt
    have hb0 : 0 < b := by omega
    by_cases hdiv : n / b = 0
    · have hnb : n < b := by
        rcases Nat.lt_or_ge n b with h | h
        · exact h
        · have := (Nat.one_le_div_iff hb0).mpr h
          omega
      rw [Nat.toDigitsCore, if_pos hdiv, Nat.digits_def' hb hn, hdiv]
      simp [Nat.mod_eq_of_lt hnb]
    · have hpos : 0 < n / b := Nat.pos_of_ne_zero hdiv
      have hlt' : n / b < b ^ fuel := by
        rw [Nat.div_lt_iff_lt_mul hb0]
        calc n < b ^ (fuel + 1) := hlt
        _ = b ^ fuel * b := by ring
      rw [Nat.toDigitsCore, if_neg hdiv, ih (n / b) _ hpos hlt',
        Nat.digits_def' hb hn]
      simp

theorem repr_eq_digits (n : Nat) (hn : 0 < n) :
    Nat.repr n = (((Nat.digits 10 n).map Nat.digitChar).reverse).asString := by
  have hlt : n < 10 ^ (n + 1) := by
    calc n < 10 ^ n := Nat.lt_pow_self (by omega) n
    _ ≤ 10 ^ (n + 1) := Nat.pow_le_pow_right (by omega) (by omega)
  rw [Nat.repr, Nat.toDigits, toDigitsCore_eq_digits 10 (by omega) (n + 1) n [] hn hlt]
  simp

theorem asString_inj {l1 l2 : List Char} (h : l1.asString = l2.asString) :
    l1 = l2 := by
  simpa [List.asString] using congrArg String.data h

theorem digitChar_inj_lt :
    ∀ x < 10, ∀ y < 10, Nat.digitChar x = Nat.digitChar y → x = y := by decide

theorem map_digitChar_inj :
    ∀ (l1 l2 : List Nat), (∀ x ∈ l1, x < 10) → (∀ x ∈ l2, x < 10) →
      l1.map Nat.digitChar = l2.map Nat.digitChar → l1 = l2 := by
  intro l1
  induction l1 with
  | nil =>
    intro l2 _ _ h
    cases l2 with
    | nil => rfl
    | cons b t => simp at h
  | cons a t ih =>
    intro l2 h1 h2 h
    cases l2 with
    | nil => simp at h
    | cons b t2 =>
      simp only [List.map_cons, List.cons.injEq] at h
      have ha : a = b := digitChar_inj_lt a (h1 a (by simp)) b (h2 b (by simp)) h.1
      have ht : t = t2 :=
        ih t2 (fun x hx => h1 x (by simp [hx])) (fun x hx => h2 x (by simp [hx])) h.2
      rw [ha, ht]

theorem repr_pos_ne_repr_zero (n : Nat) (hn : 0 < n) : Nat.repr n ≠ Nat.repr 0 := by
  intro h
  have h0 : Nat.repr 0 = (['0'] : List Char).asString := rfl
  rw [repr_eq_digits n hn, h0] at h
  have hd := asString_inj h
  have hrev : (Nat.digits 10 n).map Nat.digitChar = ['0'] := by
    have h2 := congrArg List.reverse hd
    simp only [List.reverse_reverse] at h2
    simpa using h2
  have hdig : Nat.digits 10 n = [0] := by
    refine map_digitChar_inj _ [0] (fun x hx => Nat.digits_lt_base (by omega) hx)
      ?_ ?_
    · intro x hx
      simp at hx
      omega
    · rw [hrev]
      rfl
  have hof := Nat.ofDigits_digits 10 n
  rw [hdig] at hof
  simp [Nat.ofDigits] at hof
  omega

theorem nat_repr_injective : Function.Injective Nat.repr := by
  intro m n h
  rcases Nat.eq_zero_or_pos m with hm | hm <;> rcases Nat.eq_zero_or_pos n with hn | hn
  · omega
  · exact absurd h.symm (by subst hm; exact repr_pos_ne_repr_zero n hn)
  · exact absurd h (by subst hn; exact repr_pos_ne_repr_zero m hm)
  · rw [repr_eq_digits m hm, repr_eq_digits n hn] at h
    have hd := asString_inj h
    have := congrArg List.reverse hd
    simp only [List.reverse_reverse] at this
    have hdig : Nat.digits 10 m = Nat.digits 10 n :=
      map_digitChar_inj _ _ (fun x hx => Nat.digits_lt_base (by omega) hx)
        (fun x hx => Nat.digits_lt_base (by omega) hx) this
    exact Nat.digits_inj_iff.mp hdig

/-! ### Container naming (`src/sandbox.py`, `DockerSandbox.make_unique_container_name`)

The source builds candidate names `f"bash-sandbox-instance-{i}"` for
`i = 0, 1, 2, ...` and returns the first one not in the listing returned by
`docker ps -a --format \x7b\x7b.Names\x7d\x7d`. -/

def containerName (i : Nat) : String :=
  "bash-sandbox-instance-" ++ Nat.repr i

theorem containerName_injective : Function.Injective containerName := by
  intro a b h
  apply nat_repr_injective
  have h2 := congrArg String.data h
  simp only [containerName, String.data_append] at h2
  have h3 : (Nat.repr a).data = (Nat.repr b).data :=
    List.append_cancel_left h2
  exact String.ext h3

theorem exists_fresh_containerName (existing : List String) :
    ∃ i, containerName i ∉ existing := by
  by_contra hall
  push_neg at hall
  have hmaps : ∀ i ∈ Finset.range (existing.length + 1),
      containerName i ∈ existing.toFinset := by
    intro i _
    exact List.mem_toFinset.mpr (hall i)
  have hcard : existing.toFinset.card < (Finset.range (existing.length + 1)).card := by
    rw [Finset.card_range]
    exact Nat.lt_succ_of_le existing.toFinset_card_le
  obtain ⟨a, _, b, _, hne, heq⟩ :=
    Finset.exists_ne_map_eq_of_card_lt_of_maps_to hcard hmaps
  exact hne (containerName_injective heq)

/-- The index chosen by the `for i in count()` loop: the least `i` such that
`containerName i` is not among the existing container names. -/
def firstFreeIndex (existing : List String) : Nat :=
  Nat.find (exists_fresh_containerName existing)

theorem firstFreeIndex_not_mem (existing : List String) :
    containerName (firstFreeIndex existing) ∉ existing :=
  Nat.find_spec (exists_fresh_containerName existing)

theorem firstFreeIndex_least (existing : List String) :
    ∀ j < firstFreeIndex existing, containerName j ∈ existing := by
  intro j hj
  have := Nat.find_min (exists_fresh_containerName existing) hj
  simpa using this

/-- Python `str.splitlines` restricted to `"\n"` separators (the only
separator occurring in `docker ps` output): splits at every newline and
drops the trailing empty piece produced by a terminal newline. -/
def py_splitlines (s : String) : List String :=
  if s = "" then []
  else if s.endsWith "\n" then (s.dropRight 1).splitOn "\n"
  else s.splitOn "\n"

/-- Outcome of the `docker ps -a --format \x7b\x7b.Names\x7d\x7d` subprocess:
decoded exit status, stdout and stderr. -/
structure ListingResult where
  returncode : Int
  stdout : String
  stderr : String

/-- Embeds `DockerSandbox.make_unique_container_name` (src/sandbox.py:36-55):
raises on a non-zero listing status, otherwise returns the first
`bash-sandbox-instance-<i>` absent from the listing's lines. -/
def make_unique_container_name (listing : ListingResult) : Except String String :=
  if listing.returncode ≠ 0 then
    .error ("Error getting existing containers: " ++ listing.stderr)
  else
    let existing_containers := py_splitlines listing.stdout
    .ok (containerName (firstFreeIndex existing_containers))

/-- Docker subprocess invocations issued by the sandbox lifecycle. -/
inductive DockerAction where
  | listContainers
  | buildImage
  | startContainer (name : String)
  deriving DecidableEq

/-- Environment behaviour for one `__aenter__` provisioning attempt:
the listing subprocess result and whether build/start succeed. -/
structure ProvisionEnv where
  listing : ListingResult
  build_ok : Bool
  start_ok : Bool

/-- Embeds `DockerSandbox.__aenter__` (src/sandbox.py:26-31) under the global
creation lock: reserve a name, build the image, start the container.  The
second component records the subprocess actions actually attempted, in
order; an exception propagates as `.error` and skips the remaining steps. -/
def aenter_provision (env : ProvisionEnv) : Except String String × List DockerAction :=
  match make_unique_container_name env.listing with
  | .error e => (.error e, [.listContainers])
  | .ok name =>
    if !env.build_ok then
      (.error "Error building image", [.listContainers, .buildImage])
    else if !env.start_ok then
      (.error "Error starting container",
        [.listContainers, .buildImage, .startContainer name])
    else
      (.ok name, [.listContainers, .buildImage, .startContainer name])

/-! ### Command execution (`src/sandbox.py`, `DockerSandbox.run_command`) -/

/-- Embeds `CompletedProcess` (src/sandbox.py:12-16). -/
structure CompletedProcess where
  returncode : Int
  stdout : String
  stderr : String
  deriving DecidableEq

/-- Behaviour of the `docker exec` subprocess for one command: either
`proc.communicate()` finishes within the timeout with the given status and
(permissively decoded) streams, or `asyncio.wait_for` raises
`asyncio.TimeoutError`. -/
inductive ExecOutcome where
  | completed (returncode : Int) (stdout stderr : String)
  | timedOut
  deriving DecidableEq

/-- Process-management calls made on the in-flight subprocess. -/
inductive ProcAction where
  | kill
  | wait
  deriving DecidableEq

/-- Embeds `DockerSandbox.run_command` (src/sandbox.py:97-127).  The second
component records the kill/wait calls issued to the spawned process. -/
def run_command (command : String) (timeout_seconds : Int)
    (outcome : ExecOutcome) : CompletedProcess × List ProcAction :=
  match command, timeout_seconds, outcome with
  | _, _, .timedOut => (⟨1, "", "Timed out."⟩, [.kill, .wait])
  | _, _, .completed rc out err => (⟨rc, out, err⟩, [])

/-! ### Output truncation (`src/agent.py`, `BashTool._truncate`) -/

/-- Python floor division `//` on integers. -/
def pyFloorDiv (a b : Int) : Int := Int.fdiv a b

/-- Python slice `s[:k]` for an arbitrary (possibly negative) index `k`. -/
def pySliceTo (s : List Char) (k : Int) : List Char :=
  if 0 ≤ k then s.take k.toNat else s.take (s.length - (-k).toNat)

/-- Python slice `s[j:]` for an arbitrary (possibly negative) index `j`. -/
def pySliceFrom (s : List Char) (j : Int) : List Char :=
  if 0 ≤ j then s.drop j.toNat else s.drop (s.length - (-j).toNat)

def truncationMarker : List Char := "[TRUNCATED]".data

/-- Embeds `BashTool._truncate` (src/agent.py:113-120) on the character list of the
Python string: returns `text` when `len(text) <= max_output_length`, else
`text[: L // 2] + "[TRUNCATED]" + text[-L // 2 :]`.  Python parses the last
index as `(-L) // 2` (unary minus binds tighter than `//`). -/
def bashtool_truncate (max_output_length : Int) (text : List Char) : List Char :=
  if (text.length : Int) ≤ max_output_length then text
  else
    pySliceTo text (pyFloorDiv max_output_length 2)
      ++ truncationMarker
      ++ pySliceFrom text (pyFloorDiv (-max_output_length) 2)

/-! ### Tool argument validation (`src/agent.py`, `Tool.call`) -/

/-- JSON values as produced by `json.loads`. -/
inductive Json where
  | null
  | bool (b : Bool)
  | num (n : Int)
  | str (s : String)
  | arr (elems : List Json)
  | obj (fields : List (String × Json))

/-- The parameter names of a tool action's Python signature, split into the
ones without a default (required) and the ones with a default (optional),
as computed from `signature(self._call)` in src/agent.py:33-42. -/
structure ActionSignature where
  required : List String
  optional : List String

/-- Embeds `Tool.call` (src/agent.py:24-52).  `parsed` is the outcome of
`json.loads(json_arguments)` (`none` models `JSONDecodeError`); `action` is
the underlying `_call`, whose return value is `none` for actions without a
return value.  The second component records every keyword-argument set that
`_call` is invoked with. -/
def tool_call (sig : ActionSignature)
    (action : List (String × Json) → Option String)
    (parsed : Option Json) : Option String × List (List (String × Json)) :=
  match parsed with
  | none => (none, [])
  | some arguments =>
    match arguments with
    | .obj fields =>
      if sig.required.all (fun a => decide (a ∈ fields.map Prod.fst)) then
        if (fields.map Prod.fst).all
            (fun k => decide (k ∈ sig.required) || decide (k ∈ sig.optional)) then
          (action fields, [fields])
        else (none, [])
      else (none, [])
    | _ => (none, [])

/-- Signature of `FinishTool._call(self)` (src/agent.py:66-67). -/
def finishToolSignature : ActionSignature := ⟨[], []⟩

/-- Signature of `BashTool._call(self, command: str)` (src/agent.py:94). -/
def bashToolSignature : ActionSignature := ⟨["command"], []⟩

/-! ### Agent loop (`src/agent.py`, `Agent.run`) -/

/-- One tool invocation request emitted by the model
(`tool_call.id`, `.function.name`, `.function.arguments`). -/
structure ToolCallRequest where
  id : String
  name : String
  arguments : String
  deriving DecidableEq

/-- One model response (`ChatCompletionMessage`): optional free-text content
and optional tool calls, `None` modelled as `none`. -/
structure ModelResponse where
  content : Option String
  tool_calls : Option (List ToolCallRequest)
  deriving DecidableEq

/-- Conversation entries as appended by `Agent.run`: the seed user prompt,
the optional system message, the raw model response object (line 147), the
plain assistant/user dicts of the steering branch (lines 153-159), and
tool-result messages (lines 182-188). -/
inductive Message where
  | user (content : String)
  | system (content : String)
  | assistantResponse (response : ModelResponse)
  | assistant (content : String)
  | tool (content : String) (tool_call_id : String)
  deriving DecidableEq

/-- The behaviour of one `Tool` as the agent loop observes it: its schema
name (`description_for_openai_api()["function"]["name"]`), whether it is the
`FinishTool` sentinel, and the result of `Tool.call` on a raw argument
string. -/
structure ToolSpec where
  name : String
  isFinish : Bool
  call : String → Option String

/-- Embeds `json.dumps` applied to the `str | None` value returned by `Tool.call`
(src/agent.py:185); string escaping is elided, no claim depends on it. -/
def json_dumps_str_opt (v : Option String) : String :=
  match v with
  | none => "null"
  | some s => "\"" ++ s ++ "\""

/-- The `FinishTool` as a `ToolSpec`: schema name `"finish"`
(src/agent.py:55-67); its `_call` takes no arguments and returns `None`, so
`Tool.call` on it yields `None` for every argument string. -/
def finishToolSpec : ToolSpec :=
  ⟨"finish", true, fun json_arguments =>
    (tool_call finishToolSignature (fun _ => none)
      (if json_arguments = "" then some (.obj []) else none)).1⟩

/-- Embeds `Agent.__post_init__` (src/agent.py:134-136): append a `FinishTool` when
no tool in the list is one. -/
def agent_post_init (tools : List ToolSpec) : List ToolSpec :=
  if tools.any (·.isFinish) then tools else tools ++ [finishToolSpec]

/-- Ways `Agent.run` can raise: the two `assert` statements in the loop
(src/agent.py:150 and 174). -/
inductive RunError where
  | contentAssertFailed
  | unknownToolAssertFailed
  deriving DecidableEq

/-- The per-turn tool-call loop (src/agent.py:162-191): resolve each call by
schema name (`assert` on failure), break out of the loop on the
`FinishTool` sentinel after setting `finished`, otherwise invoke the tool
and append a tool-role result message carrying the call id.  The Bool is
the `finished` flag. -/
def process_tool_calls (tools : List ToolSpec) :
    List ToolCallRequest → List Message → Except RunError (List Message × Bool)
  | [], conversation => .ok (conversation, false)
  | tc :: rest, conversation =>
    match tools.find? (fun t => t.name == tc.name) with
    | none => .error .unknownToolAssertFailed
    | some t =>
      if t.isFinish then .ok (conversation, true)
      else
        process_tool_calls tools rest
          (conversation ++ [.tool (json_dumps_str_opt (t.call tc.arguments)) tc.id])

/-- The corrective user message of the steering branch (src/agent.py:154-159). -/
def steeringMessage : Message :=
  .user "You should call tools instead of giving chat responses."

/-- The turn loop of `Agent.run` (src/agent.py:144-191).  `responses` is the
model-service oracle giving the response to the `turn`-th request; the Bool
records whether the run ended through the Finish sentinel (`true`) or by
exhausting the turn budget (`false`). -/
def agent_run_loop (tools : List ToolSpec) (responses : Nat → ModelResponse) :
    Nat → Nat → List Message → Except RunError (List Message × Bool)
  | _, 0, conversation => .ok (conversation, false)
  | turn, fuel + 1, conversation =>
    let response := responses turn
    let conversation := conversation ++ [.assistantResponse response]
    match response.tool_calls with
    | none =>
      match response.content with
      | none => .error .contentAssertFailed
      | some c =>
        agent_run_loop tools responses (turn + 1) fuel
          (conversation ++ [.assistant c, steeringMessage])
    | some tcs =>
      match process_tool_calls tools tcs conversation with
      | .error e => .error e
      | .ok (conversation', finished) =>
        if finished then .ok (conversation', true)
        else agent_run_loop tools responses (turn + 1) fuel conversation'

/-- The conversation seeding of `Agent.run` (src/agent.py:138-142): a user
message carrying the prompt, then the system message appended after it when
present. -/
def agent_seed (system_message : Option String) (prompt : String) : List Message :=
  let conversation := [Message.user prompt]
  match system_message with
  | some s => conversation ++ [Message.system s]
  | none => conversation

/-- The `Agent` fields that drive `run` (src/agent.py:125-132). -/
structure AgentConfig where
  tools : List ToolSpec
  max_turns : Nat
  system_message : Option String

/-- Default of `Agent.max_turns` (src/agent.py:129). -/
def default_max_turns : Nat := 15

/-- The text of the default `Agent.system_message` (src/agent.py:130-132). -/
def default_system_message_text : String :=
  "You are an agent that can call tools to complete a task. You are very thorough and do never give up. If something doesn't work, you make the changes that make are most likely to make it work and keep trying until it works. There is no human in the loop, so you cannot ask for help or ask for clarification. Before you call the finish tool, you must checked whether you have completed the task successfully. If it turns out that what you did failed complete the task, you should retry completing the task and not call the finish tool. When you are sure that you have completed the task successfully, call the finish tool."

/-- Default of `Agent.system_message` (src/agent.py:130-132). -/
def default_system_message : Option String := some default_system_message_text

/-- Embeds `Agent.run` (src/agent.py:138-191), with `__post_init__` applied to the
tool list. -/
def agent_run (cfg : AgentConfig) (responses : Nat → ModelResponse)
    (prompt : String) : Except RunError (List Message × Bool) :=
  agent_run_loop (agent_post_init cfg.tools) responses 0 cfg.max_turns
    (agent_seed cfg.system_message prompt)

/-! ### Evaluation fan-out (`src/evaluate.py`, `main.py`) -/

/-- Default of the `max_run_in_parallel` parameter of
`evaluate_agent_multiple_tasks` (src/evaluate.py:70). -/
def default_max_run_in_parallel : Nat := 64

/-- The bound handed to `asyncio.Semaphore` in `evaluate_agent_multiple_tasks`
(src/evaluate.py:72): the caller's `max_run_in_parallel` argument, or the
parameter default when the caller omits it. -/
def evaluate_semaphore_bound (max_run_in_parallel : Option Nat) : Nat :=
  max_run_in_parallel.getD default_max_run_in_parallel

/-- Embeds the fact that `main` (src/main.py:10-15) calls
`evaluate_agent_multiple_tasks(tasks, max_run_in_parallel=256)`. -/
def main_semaphore_bound : Nat := evaluate_semaphore_bound (some 256)

/-! ### Concurrent provisioning (`src/sandbox.py`, `__aenter__` under
`_container_creation_lock`)

Several sandboxes are opened concurrently on one asyncio event loop;
control switches between tasks only at `await` points, and `__aenter__`
holds the module-level `_container_creation_lock` across naming, image
build and container start.  Each task's progress through `__aenter__` is a
program counter; an arbitrary scheduler interleaves the steps of the
tasks.  The successful-provisioning path is modelled (listing, build and
start succeed); the `start` step makes the new container visible to all
later `docker ps -a` listings. -/

/-- Program counter of one task executing `DockerSandbox.__aenter__`. -/
inductive OpenPC where
  | ready
  | acquired
  | named (name : String)
  | built (name : String)
  | started (name : String)
  | opened (name : String)
  deriving DecidableEq

/-- The container name the task's sandbox holds, once
`make_unique_container_name` has returned it. -/
def OpenPC.heldName : OpenPC → Option String
  | .ready | .acquired => none
  | .named n | .built n | .started n | .opened n => some n

/-- Whether the task is inside the `async with _container_creation_lock`
block. -/
def OpenPC.holdsLock : OpenPC → Bool
  | .acquired | .named _ | .built _ | .started _ => true
  | _ => false

/-- Global state of the concurrent system: the creation lock's holder, the
container names known to the runtime (`docker ps -a`), and every task's
program counter. -/
structure ProvisionState (T : Type) where
  lockHolder : Option T
  docker : List String
  pcs : T → OpenPC

/-- One scheduler step of the concurrent provisioning system. -/
inductive ProvisionStep {T : Type} [DecidableEq T] :
    ProvisionState T → ProvisionState T → Prop where
  | acquire (s : ProvisionState T) (t : T) :
      s.lockHolder = none → s.pcs t = .ready →
      ProvisionStep s ⟨some t, s.docker, Function.update s.pcs t .acquired⟩
  | reserveName (s : ProvisionState T) (t : T) :
      s.lockHolder = some t → s.pcs t = .acquired →
      ProvisionStep s ⟨some t, s.docker,
        Function.update s.pcs t (.named (containerName (firstFreeIndex s.docker)))⟩
  | buildImage (s : ProvisionState T) (t : T) (n : String) :
      s.lockHolder = some t → s.pcs t = .named n →
      ProvisionStep s ⟨some t, s.docker, Function.update s.pcs t (.built n)⟩
  | startContainer (s : ProvisionState T) (t : T) (n : String) :
      s.lockHolder = some t → s.pcs t = .built n →
      ProvisionStep s
        ⟨some t, s.docker ++ [n], Function.update s.pcs t (.started n)⟩
  | release (s : ProvisionState T) (t : T) (n : String) :
      s.lockHolder = some t → s.pcs t = .started n →
      ProvisionStep s ⟨none, s.docker, Function.update s.pcs t (.opened n)⟩

/-- Initial state: lock free, arbitrary pre-existing containers, every task
about to enter `__aenter__`. -/
def provisionInit (T : Type) (docker0 : List String) : ProvisionState T :=
  ⟨none, docker0, fun _ => .ready⟩

def ProvisionReachable {T : Type} [DecidableEq T] (docker0 : List String)
    (s : ProvisionState T) : Prop :=
  Relation.ReflTransGen ProvisionStep (provisionInit T docker0) s

/-- Inductive invariant of the provisioning system: mutual exclusion, names
of started/opened sandboxes are registered with the runtime, a name chosen
but not yet started is not registered, all held names are pairwise
distinct, and every held name has the `bash-sandbox-instance-<i>` shape. -/
structure ProvisionInv {T : Type} (s : ProvisionState T) : Prop where
  lock_excl : ∀ t, (s.pcs t).holdsLock = true → s.lockHolder = some t
  started_in_docker : ∀ t n, s.pcs t = .started n ∨ s.pcs t = .opened n →
    n ∈ s.docker
  pre_not_in_docker : ∀ t n, s.pcs t = .named n ∨ s.pcs t = .built n →
    n ∉ s.docker
  names_distinct : ∀ t1 t2 n1 n2, t1 ≠ t2 → (s.pcs t1).heldName = some n1 →
    (s.pcs t2).heldName = some n2 → n1 ≠ n2
  names_wf : ∀ t n, (s.pcs t).heldName = some n → ∃ i, n = containerName i

theorem provisionInv_init {T : Type} (docker0 : List String) :
    ProvisionInv (provisionInit T docker0) := by
  refine ⟨?_, ?_, ?_, ?_, ?_⟩
  · intro t h
    simp [provisionInit, OpenPC.holdsLock] at h
  · intro t n h
    rcases h with h | h <;> simp [provisionInit] at h
  · intro t n h
    rcases h with h | h <;> simp [provisionInit] at h
  · intro t1 t2 n1 n2 _ h1 _
    simp [provisionInit, OpenPC.heldName] at h1
  · intro t n h
    simp [provisionInit, OpenPC.heldName] at h

theorem provisionInv_step {T : Type} [DecidableEq T] {s s' : ProvisionState T}
    (hs : ProvisionInv s) (hstep : ProvisionStep s s') : ProvisionInv s' := by
  obtain ⟨hexcl, hstart, hpre, hdist, hwf⟩ := hs
  cases hstep with
  | acquire t hl hpc =>
    refine ⟨?_, ?_, ?_, ?_, ?_⟩
    · intro t' h
      by_cases ht : t' = t
      · simp [ht]
      · simp only [Function.update_apply, if_neg ht] at h
        have := hexcl t' h
        rw [hl] at this
        exact absurd this (by simp)
    · intro t' n h
      by_cases ht : t' = t
      · simp [ht, Function.update_apply] at h
      · simp only [Function.update_apply, if_neg ht] at h
        exact hstart t' n h
    · intro t' n h
      by_cases ht : t' = t
      · simp [ht, Function.update_apply] at h
      · simp only [Function.update_apply, if_neg ht] at h
        exact hpre t' n h
    · intro t1 t2 n1 n2 hne h1 h2
      by_cases ht1 : t1 = t
      · simp [ht1, Function.update_apply, OpenPC.heldName] at h1
      · by_cases ht2 : t2 = t
        · simp [ht2, Function.update_apply, OpenPC.heldName] at h2
        · simp only [Function.update_apply, if_neg ht1] at h1
          simp only [Function.update_apply, if_neg ht2] at h2
          exact hdist t1 t2 n1 n2 hne h1 h2
    · intro t' n h
      by_cases ht : t' = t
      · simp [ht, Function.update_apply, OpenPC.heldName] at h
      · simp only [Function.update_apply, if_neg ht] at h
        exact hwf t' n h
  | reserveName t hl hpc =>
    have hfresh := firstFreeIndex_not_mem s.docker
    refine ⟨?_, ?_, ?_, ?_, ?_⟩
    · intro t' h
      by_cases ht : t' = t
      · simp [ht]
      · simp only [Function.update_apply, if_neg ht] at h
        have := hexcl t' h
        rw [hl] at this
        exact absurd (Option.some.inj this).symm ht
    · intro t' n h
      by_cases ht : t' = t
      · simp [ht, Function.update_apply] at h
      · simp only [Function.update_apply, if_neg ht] at h
        exact hstart t' n h
    · intro t' n h
      by_cases ht : t' = t
      · subst ht
        simp only [Function.update_same] at h
        rcases h with h | h
        · rw [← (OpenPC.named.inj h)]
          exact hfresh
        · exact absurd h (by simp)
      · simp only [Function.update_apply, if_neg ht] at h
        exact hpre t' n h
    · intro t1 t2 n1 n2 hne h1 h2
      have hside : ∀ t', t' ≠ t → ∀ m, (s.pcs t').heldName = some m →
          m ∈ s.docker := by
        intro t' ht' m hm
        cases hpcx : s.pcs t' with
        | ready => rw [hpcx] at hm; simp [OpenPC.heldName] at hm
        | acquired => rw [hpcx] at hm; simp [OpenPC.heldName] at hm
        | named k =>
          have hx := hexcl t' (by rw [hpcx]; rfl)
          rw [hl] at hx
          exact absurd (Option.some.inj hx).symm ht'
        | built k =>
          have hx := hexcl t' (by rw [hpcx]; rfl)
          rw [hl] at hx
          exact absurd (Option.some.inj hx).symm ht'
        | started k =>
          rw [hpcx] at hm
          simp only [OpenPC.heldName, Option.some.injEq] at hm
          rw [← hm]
          exact hstart t' k (Or.inl hpcx)
        | opened k =>
          rw [hpcx] at hm
          simp only [OpenPC.heldName, Option.some.injEq] at hm
          rw [← hm]
          exact hstart t' k (Or.inr hpcx)
      by_cases ht1 : t1 = t
      · subst ht1
        have ht2 : t2 ≠ t1 := fun hx => hne hx.symm
        simp only [Function.update_same] at h1
        simp only [OpenPC.heldName, Option.some.injEq] at h1
        simp only [Function.update_apply, if_neg ht2] at h2
        have hmem := hside t2 ht2 n2 h2
        rw [← h1]
        intro hcontra
        rw [hcontra] at hfresh
        exact hfresh hmem
      · by_cases ht2 : t2 = t
        · subst ht2
          simp only [Function.update_same] at h2
          simp only [OpenPC.heldName, Option.some.injEq] at h2
          simp only [Function.update_apply, if_neg ht1] at h1
          have hmem := hside t1 ht1 n1 h1
          rw [← h2]
          intro hcontra
          rw [← hcontra] at hfresh
          exact hfresh hmem
        · simp only [Function.update_apply, if_neg ht1] at h1
          simp only [Function.update_apply, if_neg ht2] at h2
          exact hdist t1 t2 n1 n2 hne h1 h2
    · intro t' n h
      by_cases ht : t' = t
      · subst ht
        simp only [Function.update_same] at h
        simp only [OpenPC.heldName, Option.some.injEq] at h
        exact ⟨firstFreeIndex s.docker, h.symm⟩
      · simp only [Function.update_apply, if_neg ht] at h
        exact hwf t' n h
  | buildImage t n hl hpc =>
    have hheld : ∀ t', (Function.update s.pcs t (OpenPC.built n) t').heldName =
        (s.pcs t').heldName := by
      intro t'
      by_cases ht : t' = t
      · simp [ht, Function.update_apply, hpc, OpenPC.heldName]
      · simp [Function.update_apply, if_neg ht]
    refine ⟨?_, ?_, ?_, ?_, ?_⟩
    · intro t' h
      by_cases ht : t' = t
      · simp [ht]
      · simp only [Function.update_apply, if_neg ht] at h
        have := hexcl t' h
        rw [hl] at this
        exact absurd (Option.some.inj this).symm ht
    · intro t' m h
      by_cases ht : t' = t
      · simp [ht, Function.update_apply] at h
      · simp only [Function.update_apply, if_neg ht] at h
        exact hstart t' m h
    · intro t' m h
      by_cases ht : t' = t
      · simp only [ht, Function.update_apply, if_pos rfl] at h
        rcases h with h | h
        · exact absurd h (by simp)
        · rw [← (OpenPC.built.inj h)]
          exact hpre t n (Or.inl hpc)
      · simp only [Function.update_apply, if_neg ht] at h
        exact hpre t' m h
    · intro t1 t2 n1 n2 hne h1 h2
      rw [show (ProvisionState.mk (some t) s.docker
          (Function.update s.pcs t (OpenPC.built n))).pcs =
          Function.update s.pcs t (OpenPC.built n) from rfl, hheld] at h1 h2
      exact hdist t1 t2 n1 n2 hne h1 h2
    · intro t' m h
      rw [show (ProvisionState.mk (some t) s.docker
          (Function.update s.pcs t (OpenPC.built n))).pcs =
          Function.update s.pcs t (OpenPC.built n) from rfl, hheld] at h
      exact hwf t' m h
  | startContainer t n hl hpc =>
    have hheld : ∀ t', (Function.update s.pcs t (OpenPC.started n) t').heldName =
        (s.pcs t').heldName := by
      intro t'
      by_cases ht : t' = t
      · simp [ht, Function.update_apply, hpc, OpenPC.heldName]
      · simp [Function.update_apply, if_neg ht]
    refine ⟨?_, ?_, ?_, ?_, ?_⟩
    · intro t' h
      by_cases ht : t' = t
      · simp [ht]
      · simp only [Function.update_apply, if_neg ht] at h
        have := hexcl t' h
        rw [hl] at this
        exact absurd (Option.some.inj this).symm ht
    · intro t' m h
      by_cases ht : t' = t
      · simp only [ht, Function.update_apply, if_pos rfl] at h
        have hm : m = n := by
          rcases h with h | h
          · exact (OpenPC.started.inj h).symm
          · exact absurd h (by simp)
        rw [hm]
        simp
      · simp only [Function.update_apply, if_neg ht] at h
        have := hstart t' m h
        simp [this]
    · intro t' m h
      by_cases ht : t' = t
      · simp [ht, Function.update_apply] at h
      · simp only [Function.update_apply, if_neg ht] at h
        have hholds : (s.pcs t').holdsLock = true := by
          rcases h with h | h <;> rw [h] <;> rfl
        have := hexcl t' hholds
        rw [hl] at this
        exact absurd (Option.some.inj this).symm ht
    · intro t1 t2 n1 n2 hne h1 h2
      rw [show (ProvisionState.mk (some t) (s.docker ++ [n])
          (Function.update s.pcs t (OpenPC.started n))).pcs =
          Function.update s.pcs t (OpenPC.started n) from rfl, hheld] at h1 h2
      exact hdist t1 t2 n1 n2 hne h1 h2
    · intro t' m h
      rw [show (ProvisionState.mk (some t) (s.docker ++ [n])
          (Function.update s.pcs t (OpenPC.started n))).pcs =
          Function.update s.pcs t (OpenPC.started n) from rfl, hheld] at h
      exact hwf t' m h
  | release t n hl hpc =>
    have hheld : ∀ t', (Function.update s.pcs t (OpenPC.opened n) t').heldName =
        (s.pcs t').heldName := by
      intro t'
      by_cases ht : t' = t
      · simp [ht, Function.update_apply, hpc, OpenPC.heldName]
      · simp [Function.update_apply, if_neg ht]
    refine ⟨?_, ?_, ?_, ?_, ?_⟩
    · intro t' h
      by_cases ht : t' = t
      · simp [ht, Function.update_apply, OpenPC.holdsLock] at h
      · simp only [Function.update_apply, if_neg ht] at h
        have := hexcl t' h
        rw [hl] at this
        exact absurd (Option.some.inj this).symm ht
    · intro t' m h
      by_cases ht : t' = t
      · simp only [ht, Function.update_apply, if_pos rfl] at h
        have hm : m = n := by
          rcases h with h | h
          · exact absurd h (by simp)
          · exact (OpenPC.opened.inj h).symm
        rw [hm]
        exact hstart t n (Or.inl hpc)
      · simp only [Function.update_apply, if_neg ht] at h
        exact hstart t' m h
    · intro t' m h
      by_cases ht : t' = t
      · simp [ht, Function.update_apply] at h
      · simp only [Function.update_apply, if_neg ht] at h
        exact hpre t' m h
    · intro t1 t2 n1 n2 hne h1 h2
      rw [show (ProvisionState.mk none s.docker
          (Function.update s.pcs t (OpenPC.opened n))).pcs =
          Function.update s.pcs t (OpenPC.opened n) from rfl, hheld] at h1 h2
      exact hdist t1 t2 n1 n2 hne h1 h2
    · intro t' m h
      rw [show (ProvisionState.mk none s.docker
          (Function.update s.pcs t (OpenPC.opened n))).pcs =
          Function.update s.pcs t (OpenPC.opened n) from rfl, hheld] at h
      exact hwf t' m h

theorem provisionInv_reachable {T : Type} [DecidableEq T]
    {docker0 : List String} {s : ProvisionState T}
    (h : ProvisionReachable docker0 s) : ProvisionInv s := by
  induction h with
  | refl => exact provisionInv_init docker0
  | tail _ hstep ih => exact provisionInv_step ih hstep

/-! ### Claim theorems -/

/-- C7: for every command whose execution exceeds the given timeout,
`run_command` returns a synthetic `CompletedProcess` with exit code 1,
empty stdout and stderr `"Timed out."` as an ordinary result value (never
an error), after killing and reaping the in-flight process. -/
theorem C7_run_command_timeout (command : String) (timeout_seconds : Int) :
    run_command command timeout_seconds .timedOut =
      (⟨1, "", "Timed out."⟩, [.kill, .wait]) := rfl

/-- C9 counterexample: with no explicit `max_run_in_parallel` argument the
semaphore bound of `evaluate_agent_multiple_tasks` is 64, not 256. -/
theorem C9_counterexample :
    evaluate_semaphore_bound none ≠ 256 ∧ evaluate_semaphore_bound none = 64 := by
  decide

/-- C9 (amended): the default maximum concurrency of
`evaluate_agent_multiple_tasks` is 64; the bound 256 is what `main` passes
explicitly, so only runs launched through `main` are capped at 256. -/
theorem C9_concurrency_bounds :
    evaluate_semaphore_bound none = default_max_run_in_parallel ∧
    default_max_run_in_parallel = 64 ∧
    main_semaphore_bound = 256 := by
  decide

/-- C10: when `system_message` is present, the seeded conversation places
the user message carrying the task prompt first and the system message
second, for every prompt. -/
theorem C10_seed_order (prompt s : String) :
    agent_seed (some s) prompt = [.user prompt, .system s] := rfl

/-- C4: for every payload that fails to parse, or is not a structured
object, or misses a required parameter, or contains a parameter name
outside required ∪ optional, `Tool.call` returns null and the underlying
action is never invoked. -/
theorem C4_tool_call_rejects (sig : ActionSignature)
    (action : List (String × Json) → Option String) (parsed : Option Json)
    (h : parsed = none
      ∨ (∃ v, parsed = some v ∧ ∀ fields, v ≠ Json.obj fields)
      ∨ (∃ fields, parsed = some (Json.obj fields) ∧
          ∃ r ∈ sig.required, r ∉ fields.map Prod.fst)
      ∨ (∃ fields, parsed = some (Json.obj fields) ∧
          ∃ k ∈ fields.map Prod.fst, k ∉ sig.required ∧ k ∉ sig.optional)) :
    tool_call sig action parsed = (none, []) := by
  rcases h with h | ⟨v, hv, hno⟩ | ⟨fields, hf, r, hr, hnr⟩ |
    ⟨fields, hf, k, hk, hk1, hk2⟩
  · rw [h]
    rfl
  · rw [hv]
    cases v with
    | obj fields => exact absurd rfl (hno fields)
    | null => rfl
    | bool b => rfl
    | num n => rfl
    | str s => rfl
    | arr elems => rfl
  · rw [hf]
    simp only [tool_call]
    rw [if_neg]
    intro hall
    rw [List.all_eq_true] at hall
    have := hall r hr
    simp only [decide_eq_true_eq] at this
    exact hnr this
  · rw [hf]
    simp only [tool_call]
    by_cases hreq : sig.required.all (fun a => decide (a ∈ fields.map Prod.fst)) = true
    · rw [if_pos hreq, if_neg]
      intro hall
      rw [List.all_eq_true] at hall
      have := hall k hk
      simp at this
      rcases this with h | h
      · exact hk1 h
      · exact hk2 h
    · rw [if_neg hreq]

/-- C4 witness: the Bash tool signature rejects an empty object payload
(missing the required `command`). -/
theorem C4_witness :
    tool_call bashToolSignature (fun _ => some "ok") (some (Json.obj [])) =
      (none, []) :=
  C4_tool_call_rejects bashToolSignature (fun _ => some "ok")
    (some (Json.obj []))
    (Or.inr (Or.inr (Or.inl ⟨[], rfl, "command", by simp [bashToolSignature],
      by simp⟩)))

/-- C5: for every payload that parses as an object, contains all required
parameters and no names outside required ∪ optional, `Tool.call` invokes
the underlying action exactly once with exactly those key/value pairs and
returns the action's result. -/
theorem C5_tool_call_accepts (sig : ActionSignature)
    (action : List (String × Json) → Option String)
    (fields : List (String × Json))
    (hreq : ∀ r ∈ sig.required, r ∈ fields.map Prod.fst)
    (hnames : ∀ k ∈ fields.map Prod.fst, k ∈ sig.required ∨ k ∈ sig.optional) :
    tool_call sig action (some (Json.obj fields)) = (action fields, [fields]) := by
  have h1 : sig.required.all (fun a => decide (a ∈ fields.map Prod.fst)) = true := by
    rw [List.all_eq_true]
    intro r hr
    simpa using hreq r hr
  have h2 : (fields.map Prod.fst).all
      (fun k => decide (k ∈ sig.required) || decide (k ∈ sig.optional)) = true := by
    rw [List.all_eq_true]
    intro k hk
    rcases hnames k hk with h | h <;> simp [h]
  simp only [tool_call]
  rw [if_pos h1, if_pos h2]

/-- C5 witness: a well-formed Bash invocation payload reaches the action
with exactly its key/value pair and returns the action's result. -/
theorem C5_witness :
    tool_call bashToolSignature (fun _ => some "ok")
      (some (Json.obj [("command", Json.str "echo hi")])) =
      (some "ok", [[("command", Json.str "echo hi")]]) :=
  C5_tool_call_accepts bashToolSignature (fun _ => some "ok")
    [("command", Json.str "echo hi")]
    (by simp [bashToolSignature]) (by simp [bashToolSignature])

/-- C8: name reservation returns `bash-sandbox-instance-<i>` for the lowest
index `i` not present in the runtime's listing of container names; if the
listing command exits non-zero, reservation fails with a descriptive error
and no container is started. -/
theorem C8_make_unique_container_name (env : ProvisionEnv) :
    (env.listing.returncode = 0 →
      ∃ i, make_unique_container_name env.listing = .ok (containerName i) ∧
        containerName i ∉ py_splitlines env.listing.stdout ∧
        ∀ j < i, containerName j ∈ py_splitlines env.listing.stdout) ∧
    (env.listing.returncode ≠ 0 →
      make_unique_container_name env.listing =
        .error ("Error getting existing containers: " ++ env.listing.stderr) ∧
      aenter_provision env =
        (.error ("Error getting existing containers: " ++ env.listing.stderr),
          [.listContainers]) ∧
      ∀ name, DockerAction.startContainer name ∉ (aenter_provision env).2) := by
  constructor
  · intro h0
    refine ⟨firstFreeIndex (py_splitlines env.listing.stdout), ?_,
      firstFreeIndex_not_mem _, firstFreeIndex_least _⟩
    unfold make_unique_container_name
    rw [if_neg (not_not_intro h0)]
  · intro hne
    have herr : make_unique_container_name env.listing =
        .error ("Error getting existing containers: " ++ env.listing.stderr) := by
      unfold make_unique_container_name
      rw [if_pos hne]
    refine ⟨herr, ?_, ?_⟩
    · unfold aenter_provision
      rw [herr]
    · intro name
      unfold aenter_provision
      rw [herr]
      simp

/-- C8 witness: a successful empty listing reserves the lowest-indexed
name; a failed listing (exit status 1) yields the descriptive error and a
provisioning trace containing no container start. -/
theorem C8_witness :
    (∃ i, make_unique_container_name ⟨0, "", ""⟩ = .ok (containerName i) ∧
        containerName i ∉ py_splitlines "" ∧
        ∀ j < i, containerName j ∈ py_splitlines "") ∧
    (make_unique_container_name ⟨1, "", "boom"⟩ =
        .error ("Error getting existing containers: " ++ "boom") ∧
      aenter_provision ⟨⟨1, "", "boom"⟩, true, true⟩ =
        (.error ("Error getting existing containers: " ++ "boom"),
          [.listContainers]) ∧
      ∀ name, DockerAction.startContainer name ∉
        (aenter_provision ⟨⟨1, "", "boom"⟩, true, true⟩).2) :=
  ⟨(C8_make_unique_container_name ⟨⟨0, "", ""⟩, true, true⟩).1 rfl,
    (C8_make_unique_container_name ⟨⟨1, "", "boom"⟩, true, true⟩).2 (by decide)⟩

/-- Helper for C2: when every consulted response is plain text without tool
calls, each turn appends exactly three messages and the loop runs to the
end of its budget without finishing. -/
theorem agent_run_loop_all_plain (tools : List ToolSpec)
    (responses : Nat → ModelResponse) :
    ∀ (fuel turn : Nat) (conversation : List Message),
      (∀ k, turn ≤ k → k < turn + fuel → (responses k).tool_calls = none ∧
        ∃ c, (responses k).content = some c) →
      ∃ conv', agent_run_loop tools responses turn fuel conversation =
          .ok (conv', false) ∧
        conv'.length = conversation.length + 3 * fuel := by
  intro fuel
  induction fuel with
  | zero =>
    intro turn conversation _
    exact ⟨conversation, rfl, by omega⟩
  | succ fuel ih =>
    intro turn conversation h
    obtain ⟨htc, c, hc⟩ := h turn (Nat.le_refl _) (by omega)
    obtain ⟨conv', heq, hlen⟩ := ih (turn + 1)
      (conversation ++ [.assistantResponse (responses turn)] ++
        [.assistant c, steeringMessage])
      (fun k hk1 hk2 => h k (by omega) (by omega))
    refine ⟨conv', ?_, ?_⟩
    · rw [agent_run_loop]
      simp only [htc, hc]
      exact heq
    · rw [hlen]
      simp only [List.length_append, List.length_cons, List.length_nil]
      omega

/-- C2 counterexample: with the agent's default (present) system message
and `max_turns = 1`, an all-plain-text run ends with a conversation of 5
messages, not `1 + 3 * 1 = 4` — the seed itself is two messages. -/
theorem C2_counterexample :
    agent_run ⟨[], 1, default_system_message⟩
        (fun _ => ⟨some "hi", none⟩) "p" =
      .ok ([.user "p", .system default_system_message_text,
        .assistantResponse ⟨some "hi", none⟩, .assistant "hi",
        steeringMessage], false) ∧
    ([Message.user "p", .system default_system_message_text,
      .assistantResponse ⟨some "hi", none⟩, .assistant "hi",
      steeringMessage].length ≠ 1 + 3 * 1) := by
  constructor
  · rfl
  · decide

/-- C2 (amended): if on every one of `max_turns` turns the model replies
with plain text and no tool calls, `Agent.run` ends without a Finish, with
no exception, and the final conversation length is the seed length (1
without a system message, 2 with one) plus `3 * max_turns`; it equals
`1 + 3 * max_turns` exactly when `system_message` is `None`. -/
theorem C2_all_plain_run (cfg : AgentConfig) (responses : Nat → ModelResponse)
    (prompt : String)
    (h : ∀ k < cfg.max_turns, (responses k).tool_calls = none ∧
      ∃ c, (responses k).content = some c) :
    ∃ conv', agent_run cfg responses prompt = .ok (conv', false) ∧
      conv'.length = (match cfg.system_message with
        | none => 1
        | some _ => 2) + 3 * cfg.max_turns := by
  obtain ⟨conv', heq, hlen⟩ := agent_run_loop_all_plain (agent_post_init cfg.tools)
    responses cfg.max_turns 0 (agent_seed cfg.system_message prompt)
    (fun k _ hk2 => h k (by omega))
  refine ⟨conv', heq, ?_⟩
  rw [hlen]
  cases cfg.system_message <;> simp [agent_seed]

/-- C2 witness: a one-turn all-plain run without a system message reaches
length `1 + 3 * 1`. -/
theorem C2_witness :
    ∃ conv', agent_run ⟨[], 1, none⟩ (fun _ => ⟨some "hi", none⟩) "p" =
        .ok (conv', false) ∧
      conv'.length = (match (none : Option String) with
        | none => 1
        | some _ => 2) + 3 * 1 :=
  C2_all_plain_run ⟨[], 1, none⟩ (fun _ => ⟨some "hi", none⟩) "p"
    (fun _ _ => ⟨rfl, "hi", rfl⟩)

/-- Number of tool-role result messages in a conversation. -/
def toolResultCount (conversation : List Message) : Nat :=
  conversation.countP (fun m => match m with
    | Message.tool _ _ => true
    | _ => false)

/-- C1 (code bug): a turn whose ToolCalls are `[finish, run_bash_command]`
ends the run with no tool-result message appended for the bash call — the
loop in src/agent.py:164-179 executes `break` on the Finish sentinel, so
the remaining ToolCalls of the turn are skipped, contradicting both the
comment at src/agent.py:177 and the specified complete-then-stop behaviour. -/
theorem C1_break_skips_remaining_calls :
    agent_run ⟨[⟨"run_bash_command", false, fun _ => some "output"⟩], 1, none⟩
      (fun _ => ⟨none, some [⟨"call1", "finish", "\x7b\x7d"⟩,
        ⟨"call2", "run_bash_command", "\x7b\"command\": \"echo hi\"\x7d"⟩]⟩)
      "p" =
      .ok ([.user "p",
        .assistantResponse ⟨none, some [⟨"call1", "finish", "\x7b\x7d"⟩,
          ⟨"call2", "run_bash_command",
            "\x7b\"command\": \"echo hi\"\x7d"⟩]⟩], true) ∧
    toolResultCount [.user "p",
      .assistantResponse ⟨none, some [⟨"call1", "finish", "\x7b\x7d"⟩,
        ⟨"call2", "run_bash_command",
          "\x7b\"command\": \"echo hi\"\x7d"⟩]⟩] = 0 := by
  constructor
  · rfl
  · rfl

/-- Characterization of `BashTool._truncate` on over-long input for a
positive bound: prefix of `⌊L/2⌋` characters, the marker, and suffix of
`⌈L/2⌉` characters, for a total length of exactly `L` plus the marker. -/
theorem bashtool_truncate_long (L : Int) (hL : 1 ≤ L) (text : List Char)
    (hlen : L < (text.length : Int)) :
    bashtool_truncate L text =
      text.take (L.toNat / 2) ++ truncationMarker
        ++ text.drop (text.length - (L.toNat + 1) / 2) ∧
    (bashtool_truncate L text).length = L.toNat + truncationMarker.length := by
  have hfd1 : pyFloorDiv L 2 = ((L.toNat / 2 : Nat) : Int) := by
    unfold pyFloorDiv
    rw [Int.fdiv_eq_ediv _ (by omega : (0:Int) ≤ 2)]
    omega
  have hfd2 : pyFloorDiv (-L) 2 = -(((L.toNat + 1) / 2 : Nat) : Int) := by
    unfold pyFloorDiv
    rw [Int.fdiv_eq_ediv _ (by omega : (0:Int) ≤ 2)]
    omega
  have heq : bashtool_truncate L text =
      text.take (L.toNat / 2) ++ truncationMarker
        ++ text.drop (text.length - (L.toNat + 1) / 2) := by
    unfold bashtool_truncate
    rw [if_neg (by omega)]
    rw [hfd1, hfd2]
    unfold pySliceTo pySliceFrom
    rw [if_pos (by omega : (0:Int) ≤ ((L.toNat / 2 : Nat) : Int))]
    rw [if_neg (by omega : ¬ (0:Int) ≤ -(((L.toNat + 1) / 2 : Nat) : Int))]
    simp only [neg_neg, Int.toNat_natCast, List.append_assoc]
  refine ⟨heq, ?_⟩
  rw [heq]
  simp only [List.length_append, List.length_take, List.length_drop]
  omega

/-- C6 counterexample: with truncation bound 0 (an `int` the field type
allows), truncating `"a"` is not idempotent and the output exceeds the
bound plus the marker length. -/
theorem C6_counterexample :
    bashtool_truncate 0 (bashtool_truncate 0 "a".data) ≠
      bashtool_truncate 0 "a".data ∧
    ¬ ((bashtool_truncate 0 "a".data).length ≤ 0 + truncationMarker.length) := by
  decide

/-- C6 (amended): for every string and every positive truncation bound,
`BashTool._truncate` is idempotent and the truncated output's length is at
most the bound plus the marker length. -/
theorem C6_truncate_idempotent (L : Int) (hL : 1 ≤ L) (text : List Char) :
    bashtool_truncate L (bashtool_truncate L text) = bashtool_truncate L text ∧
    ((bashtool_truncate L text).length : Int) ≤ L + truncationMarker.length := by
  by_cases hlen : (text.length : Int) ≤ L
  · have h1 : bashtool_truncate L text = text := by
      unfold bashtool_truncate
      rw [if_pos hlen]
    rw [h1]
    exact ⟨h1, by omega⟩
  · push_neg at hlen
    obtain ⟨heq, hlen1⟩ := bashtool_truncate_long L hL text hlen
    have hm : truncationMarker.length = 11 := rfl
    constructor
    · have hlen2 : L < ((bashtool_truncate L text).length : Int) := by
        rw [hlen1]
        omega
      obtain ⟨heq2, _⟩ := bashtool_truncate_long L hL _ hlen2
      rw [heq2]
      have hpl : (text.take (L.toNat / 2)).length = L.toNat / 2 := by
        rw [List.length_take]
        omega
      have htake : (bashtool_truncate L text).take (L.toNat / 2) =
          text.take (L.toNat / 2) := by
        rw [heq, List.append_assoc, List.take_left' hpl]
      have hdropn : (bashtool_truncate L text).length - (L.toNat + 1) / 2 =
          (text.take (L.toNat / 2) ++ truncationMarker).length := by
        rw [hlen1, List.length_append, hpl, hm]
        omega
      have hdrop : (bashtool_truncate L text).drop
          ((bashtool_truncate L text).length - (L.toNat + 1) / 2) =
          text.drop (text.length - (L.toNat + 1) / 2) := by
        rw [hdropn, heq]
        exact List.drop_left _ _
      rw [htake, hdrop, heq]
    · rw [hlen1]
      omega

/-- C6 witness: bound 4 on an 8-character string — truncating twice equals
truncating once and the output stays within `4 + 11` characters. -/
theorem C6_witness :
    (1:Int) ≤ 4 ∧
    (bashtool_truncate 4 (bashtool_truncate 4 "abcdefgh".data) =
      bashtool_truncate 4 "abcdefgh".data ∧
    ((bashtool_truncate 4 "abcdefgh".data).length : Int) ≤
      4 + truncationMarker.length) :=
  ⟨by decide, C6_truncate_idempotent 4 (by decide) "abcdefgh".data⟩

/-- C3: in every state reachable by concurrently-opening sandboxes
(arbitrary interleaving at the await points, shared naming source), the
names assigned to distinct tasks are pairwise distinct and of the form
`bash-sandbox-instance-<i>` for distinct `i`; moreover a name about to be
returned by reservation is never one currently held by a live sandbox. -/
theorem C3_concurrent_names_distinct {T : Type} [DecidableEq T]
    (docker0 : List String) (s : ProvisionState T)
    (h : ProvisionReachable docker0 s) :
    (∀ t1 t2 n1 n2, t1 ≠ t2 → (s.pcs t1).heldName = some n1 →
      (s.pcs t2).heldName = some n2 →
      n1 ≠ n2 ∧ ∃ i1 i2, n1 = containerName i1 ∧ n2 = containerName i2 ∧
        i1 ≠ i2) ∧
    (∀ t3, s.pcs t3 = .acquired → ∀ t4 n4, (s.pcs t4).heldName = some n4 →
      containerName (firstFreeIndex s.docker) ≠ n4) := by
  have hinv := provisionInv_reachable h
  constructor
  · intro t1 t2 n1 n2 hne h1 h2
    have hd := hinv.names_distinct t1 t2 n1 n2 hne h1 h2
    obtain ⟨i1, hi1⟩ := hinv.names_wf t1 n1 h1
    obtain ⟨i2, hi2⟩ := hinv.names_wf t2 n2 h2
    refine ⟨hd, i1, i2, hi1, hi2, ?_⟩
    intro hii
    rw [hi1, hi2, hii] at hd
    exact hd rfl
  · intro t3 h3 t4 n4 h4
    have hfresh := firstFreeIndex_not_mem s.docker
    cases hpc4 : s.pcs t4 with
    | ready => rw [hpc4] at h4; simp [OpenPC.heldName] at h4
    | acquired => rw [hpc4] at h4; simp [OpenPC.heldName] at h4
    | named m =>
      have hl3 := hinv.lock_excl t3 (by rw [h3]; rfl)
      have hl4 := hinv.lock_excl t4 (by rw [hpc4]; rfl)
      rw [hl3] at hl4
      have ht : t3 = t4 := Option.some.inj hl4
      rw [← ht, h3] at hpc4
      exact absurd hpc4 (by simp)
    | built m =>
      have hl3 := hinv.lock_excl t3 (by rw [h3]; rfl)
      have hl4 := hinv.lock_excl t4 (by rw [hpc4]; rfl)
      rw [hl3] at hl4
      have ht : t3 = t4 := Option.some.inj hl4
      rw [← ht, h3] at hpc4
      exact absurd hpc4 (by simp)
    | started m =>
      have hmem := hinv.started_in_docker t4 m (Or.inl hpc4)
      rw [hpc4] at h4
      simp only [OpenPC.heldName, Option.some.injEq] at h4
      rw [← h4]
      intro hcontra
      rw [hcontra] at hfresh
      exact hfresh hmem
    | opened m =>
      have hmem := hinv.started_in_docker t4 m (Or.inr hpc4)
      rw [hpc4] at h4
      simp only [OpenPC.heldName, Option.some.injEq] at h4
      rw [← h4]
      intro hcontra
      rw [hcontra] at hfresh
      exact hfresh hmem

/-- One task runs `__aenter__` to completion from a state where the lock is
free: acquire, reserve the first free name, build, start, release. -/
theorem open_one_run {T : Type} [DecidableEq T] (s : ProvisionState T) (t : T)
    (hl : s.lockHolder = none) (hpc : s.pcs t = .ready) :
    Relation.ReflTransGen (@ProvisionStep T _) s
      ⟨none, s.docker ++ [containerName (firstFreeIndex s.docker)],
        Function.update s.pcs t
          (OpenPC.opened (containerName (firstFreeIndex s.docker)))⟩ := by
  have h1 := ProvisionStep.acquire s t hl hpc
  have h2 := ProvisionStep.reserveName
    (⟨some t, s.docker, Function.update s.pcs t OpenPC.acquired⟩ :
      ProvisionState T) t rfl (by simp)
  have h3 := ProvisionStep.buildImage
    (⟨some t, s.docker, Function.update (Function.update s.pcs t OpenPC.acquired)
      t (OpenPC.named (containerName (firstFreeIndex s.docker)))⟩ :
      ProvisionState T)
    t (containerName (firstFreeIndex s.docker)) rfl (by simp)
  have h4 := ProvisionStep.startContainer
    (⟨some t, s.docker, Function.update (Function.update (Function.update s.pcs
      t OpenPC.acquired) t
      (OpenPC.named (containerName (firstFreeIndex s.docker)))) t
      (OpenPC.built (containerName (firstFreeIndex s.docker)))⟩ :
      ProvisionState T)
    t (containerName (firstFreeIndex s.docker)) rfl (by simp)
  have h5 := ProvisionStep.release
    (⟨some t, s.docker ++ [containerName (firstFreeIndex s.docker)],
      Function.update (Function.update (Function.update (Function.update s.pcs
      t OpenPC.acquired) t
      (OpenPC.named (containerName (firstFreeIndex s.docker)))) t
      (OpenPC.built (containerName (firstFreeIndex s.docker)))) t
      (OpenPC.started (containerName (firstFreeIndex s.docker)))⟩ :
      ProvisionState T)
    t (containerName (firstFreeIndex s.docker)) rfl (by simp)
  have hfinal : Function.update (Function.update (Function.update
      (Function.update (Function.update s.pcs t OpenPC.acquired) t
      (OpenPC.named (containerName (firstFreeIndex s.docker)))) t
      (OpenPC.built (containerName (firstFreeIndex s.docker)))) t
      (OpenPC.started (containerName (firstFreeIndex s.docker)))) t
      (OpenPC.opened (containerName (firstFreeIndex s.docker)))
      = Function.update s.pcs t
        (OpenPC.opened (containerName (firstFreeIndex s.docker))) := by
    simp [Function.update_idem]
  rw [← hfinal]
  exact Relation.ReflTransGen.head h1 (Relation.ReflTransGen.head h2
    (Relation.ReflTransGen.head h3 (Relation.ReflTransGen.head h4
      (Relation.ReflTransGen.head h5 Relation.ReflTransGen.refl))))

theorem firstFreeIndex_nil : firstFreeIndex ([] : List String) = 0 := by
  unfold firstFreeIndex
  rw [Nat.find_eq_iff]
  exact ⟨by simp, fun m hm => absurd hm (Nat.not_lt_zero m)⟩

theorem firstFreeIndex_after_zero : firstFreeIndex [containerName 0] = 1 := by
  unfold firstFreeIndex
  rw [Nat.find_eq_iff]
  constructor
  · simp only [List.mem_singleton]
    intro hcontra
    exact absurd (containerName_injective hcontra) one_ne_zero
  · intro m hm
    have hm0 : m = 0 := by omega
    subst hm0
    simp

/-- C3 witness: two tasks (`false` and `true`) interleave their opens from
an empty runtime; the reachable final state assigns
`bash-sandbox-instance-0` and `bash-sandbox-instance-1`, distinct names
with distinct indices. -/
theorem C3_witness :
    ∃ s : ProvisionState Bool, ProvisionReachable [] s ∧
      (s.pcs false).heldName = some (containerName 0) ∧
      (s.pcs true).heldName = some (containerName 1) ∧
      (containerName 0 ≠ containerName 1 ∧
        ∃ i1 i2, containerName 0 = containerName i1 ∧
          containerName 1 = containerName i2 ∧ i1 ≠ i2) := by
  have r1 := open_one_run (provisionInit Bool []) false rfl rfl
  have r2 := open_one_run
    (⟨none, (provisionInit Bool []).docker ++
      [containerName (firstFreeIndex (provisionInit Bool []).docker)],
      Function.update (provisionInit Bool []).pcs false
        (OpenPC.opened (containerName
          (firstFreeIndex (provisionInit Bool []).docker)))⟩ :
      ProvisionState Bool)
    true rfl (by simp [provisionInit])
  have hreach : ProvisionReachable ([] : List String) _ :=
    Relation.ReflTransGen.trans r1 r2
  have hf : ∀ s2, ProvisionReachable ([] : List String) s2 →
      (s2.pcs false).heldName = some (containerName 0) →
      (s2.pcs true).heldName = some (containerName 1) →
      ∃ s : ProvisionState Bool, ProvisionReachable [] s ∧
        (s.pcs false).heldName = some (containerName 0) ∧
        (s.pcs true).heldName = some (containerName 1) ∧
        (containerName 0 ≠ containerName 1 ∧
          ∃ i1 i2, containerName 0 = containerName i1 ∧
            containerName 1 = containerName i2 ∧ i1 ≠ i2) := by
    intro s2 hr hfalse htrue
    exact ⟨s2, hr, hfalse, htrue,
      (C3_concurrent_names_distinct [] s2 hr).1 false true _ _
        (by decide) hfalse htrue⟩
  refine hf _ hreach ?_ ?_
  · simp [provisionInit, Function.update_apply, firstFreeIndex_nil,
      OpenPC.heldName]
  · simp [provisionInit, Function.update_apply, firstFreeIndex_nil,
      firstFreeIndex_after_zero, OpenPC.heldName]

end SimpleAgentScaffold
